import Mathlib

/-!
Verification of the LEAP `filterSequence` regularization framework
(`src/leap_filter_sequence.py`).

Volumes are modelled as lists of exact rationals (idealizing the float32
arrays), and the engine (`leapct`) array primitives are translated into
elementwise list operations.  Engine-native kernels that live outside this
file's source (`AzimuthalBlur`, `diffuse`) are taken as opaque function
parameters, per the numeric-engine capability contract.  Python's float
power `x ** p` is modelled exactly on the integer-exponent regime, which is
the only regime any of the verified statements evaluates; see `fpow`.
In-place mutation of a volume is modelled by explicit state passing: each
operation returns the final contents of the mutated buffer.
-/

namespace LEAP

/-- A reconstruction volume: the dense array of voxel values, flattened. -/
abbrev Volume := List ℚ

/-- `leapct.sum`: reduction of all voxel values. -/
def vsum (f : Volume) : ℚ := f.sum

/-- Elementwise absolute value (`leapct.abs`). -/
def vabs (f : Volume) : Volume := f.map (fun x => |x|)

/-- Elementwise sign (`leapct.sign`, numpy convention: -1, 0, or 1). -/
def vsign (f : Volume) : Volume :=
  f.map (fun x => if 0 < x then 1 else if x < 0 then -1 else 0)

/-- Elementwise addition of two volumes. -/
def vadd (f g : Volume) : Volume := List.zipWith (· + ·) f g

/-- Elementwise subtraction of two volumes. -/
def vsub (f g : Volume) : Volume := List.zipWith (· - ·) f g

/-- Elementwise product of two volumes. -/
def vmul (f g : Volume) : Volume := List.zipWith (· * ·) f g

/-- Elementwise minimum (`leapct.minimum`). -/
def vmin (f g : Volume) : Volume := List.zipWith min f g

/-- Scalar times volume. -/
def smul (c : ℚ) (f : Volume) : Volume := f.map (fun x => c * x)

/-- A zero volume with the shape of `f` (`copyData` then fill with 0). -/
def zeroLike (f : Volume) : Volume := f.map (fun _ => (0 : ℚ))

/-- Python float power `x ** p`, modelled exactly for integer exponents
(the only exponents evaluated by any statement below: `p ∈ {0, 1, 2}`
after the arithmetic on the stored norm order).  Non-integer exponents are
outside the rational model and are mapped to 0; no theorem in this file
evaluates `fpow` at a non-integer exponent. -/
def fpow (x p : ℚ) : ℚ := if p.den = 1 then x ^ p.num else 0

/-- Elementwise power `f ** p`. -/
def vpow (f : Volume) (p : ℚ) : Volume := f.map (fun x => fpow x p)

/-- `leapct.innerProd(a, d1, d2) = Σ a·d1·d2`. -/
def innerProd (a d1 d2 : Volume) : ℚ :=
  (List.zipWith (· * ·) (List.zipWith (· * ·) a d1) d2).sum

/-- A filter (one regularizer term), as consumed by `filterSequence`:
the two attributes set by the `denoisingFilter` base constructor
(`weight`, `isDifferentiable`) plus the four polymorphic operations.
`applyOp` is the net effect of the (possibly overridden) `apply` method on
the buffer passed in; for a filter whose `apply` performs no mutation it
is the identity. -/
structure Filter where
  isDifferentiable : Bool
  weight : ℚ
  cost : Volume → ℚ
  gradient : Volume → Volume
  quadForm : Volume → Volume → ℚ
  applyOp : Volume → Volume

/-- `denoisingFilter.apply` (the base-class generic fallback, lines 71-93):
for a differentiable filter, one exact-step gradient-descent iteration
`f - (sum(d**2)/quadForm(f,d)) * d`, skipped (volume returned unchanged)
when the denominator is at most `1e-16`; for a non-differentiable filter
the method returns `None`, modelled as `none`. -/
def denoisingFilter.apply (φ : Filter) (f : Volume) : Option Volume :=
  if φ.isDifferentiable then
    let d := φ.gradient f
    let num := vsum (vpow d 2)
    let denom := φ.quadForm f d
    if denom ≤ 1 / 10 ^ 16 then some f
    else some (vsub f (smul (num / denom) d))
  else none

/-- A filter participates in the differentiable evaluation triad of a
`filterSequence` when `isDifferentiable == True and weight > 0.0`. -/
def participates (φ : Filter) : Prop := φ.isDifferentiable = true ∧ 0 < φ.weight

instance (φ : Filter) : Decidable (participates φ) := by
  unfold participates
  infer_instance

/-- `filterSequence`: an ordered list of filters and the overall strength
`beta`. -/
structure filterSequence where
  filters : List Filter
  beta : ℚ

/-- `filterSequence.cost` (lines 471-479): accumulate `cost` over the
filters with `isDifferentiable == True and weight > 0.0`, then multiply by
`beta`; the accumulator starts at `0.0` and the loop only runs when
`beta > 0.0`. -/
def filterSequence.cost (S : filterSequence) (f : Volume) : ℚ :=
  if 0 < S.beta then
    S.beta *
      S.filters.foldl
        (fun acc φ => if participates φ then acc + φ.cost f else acc) 0
  else 0

/-- `filterSequence.gradient` (lines 481-490): `D` starts as a zero volume
of `f`'s shape; gradients of the participating filters are accumulated
into it and the result is scaled by `beta`, all only when `beta > 0.0`. -/
def filterSequence.gradient (S : filterSequence) (f : Volume) : Volume :=
  if 0 < S.beta then
    smul S.beta
      (S.filters.foldl
        (fun D φ => if participates φ then vadd D (φ.gradient f) else D)
        (zeroLike f))
  else zeroLike f

/-- `filterSequence.quadForm` (lines 492-500): same accumulation pattern
as `cost`, over `quadForm(f, d)`. -/
def filterSequence.quadForm (S : filterSequence) (f d : Volume) : ℚ :=
  if 0 < S.beta then
    S.beta *
      S.filters.foldl
        (fun acc φ => if participates φ then acc + φ.quadForm f d else acc) 0
  else 0

/-- `filterSequence.apply` (lines 502-506): every filter's `apply` is run
on the buffer `f` in list order, unconditionally, and the buffer is
returned. -/
def filterSequence.apply (S : filterSequence) (f : Volume) : Volume :=
  S.filters.foldl (fun g φ => φ.applyOp g) f

/-- The sum `Σ_n cost_n(f)` over the filters with
`isDifferentiable && weight > 0`, written as the spec states it (a direct
sum over the participating subset), for comparison with the accumulator
loop of `filterSequence.cost`. -/
def costSum (f : Volume) : List Filter → ℚ
  | [] => 0
  | φ :: rest => (if participates φ then φ.cost f else 0) + costSum f rest

/-- The sum `Σ_n gradient_n(f)` over the participating filters, started
from a zero volume of `f`'s shape, written as the spec states it. -/
def gradSum (f : Volume) : List Filter → Volume
  | [] => zeroLike f
  | φ :: rest =>
      if participates φ then vadd (φ.gradient f) (gradSum f rest)
      else gradSum f rest

/-- The sum `Σ_n quadForm_n(f, d)` over the participating filters, written
as the spec states it. -/
def quadFormSum (f d : Volume) : List Filter → ℚ
  | [] => 0
  | φ :: rest =>
      (if participates φ then φ.quadForm f d else 0) + quadFormSum f d rest

/-- Centering on the optional prior volume: the repeated
`if self.f_0 is not None: ... f - self.f_0 ... else ... f ...` pattern. -/
def centerVol (f : Volume) : Option Volume → Volume
  | some f0 => vsub f f0
  | none => f

/-- The zero-guarded `(p-2)`-power weighting used by `LpNorm.quadForm`
(lines 268-283) and `azimuthalFilter.quadForm` (lines 430-433), per voxel:
`ind = x == 0.0; x[ind] = 1.0; x = abs(x)**e; x[ind] = 0.0`. -/
def guardPow (e : ℚ) (x : ℚ) : ℚ :=
  let x1 := if x = 0 then 1 else x
  let y := fpow |x1| e
  if x = 0 then 0 else y

/-- The `LpNorm` filter state after `__init__` (lines 236-250):
`p = max(0.0, p)`, `weight`, optional prior `f_0`;
`isDifferentiable = True`. -/
structure LpNorm where
  p : ℚ
  weight : ℚ
  f_0 : Option Volume

/-- `LpNorm.__init__`: the stored norm order is clamped to `max(0.0, p)`. -/
def LpNorm.init (p weight : ℚ) (f_0 : Option Volume) : LpNorm :=
  { p := max 0 p, weight := weight, f_0 := f_0 }

/-- `LpNorm.cost` (lines 252-256): `weight * sum(abs(f - f_0)**p)`
(of `f` itself when no prior is set). -/
def LpNorm.cost (φ : LpNorm) (f : Volume) : ℚ :=
  φ.weight * vsum (vpow (vabs (centerVol f φ.f_0)) φ.p)

/-- `LpNorm.gradient` (lines 258-266):
`weight * p * sign(Df) * abs(Df)**(p-1)` with `Df = f - f_0` (or `f`). -/
def LpNorm.gradient (φ : LpNorm) (f : Volume) : Volume :=
  let Df := centerVol f φ.f_0
  smul (φ.weight * φ.p) (vmul (vsign Df) (vpow (vabs Df) (φ.p - 1)))

/-- `LpNorm.quadForm` (lines 268-283):
`weight * p * innerProd(W, d, d)` where `W` is the zero-guarded
`(p-2)`-power of `f - f_0` (or `f`). -/
def LpNorm.quadForm (φ : LpNorm) (f d : Volume) : ℚ :=
  φ.weight * φ.p *
    innerProd ((centerVol f φ.f_0).map (guardPow (φ.p - 2))) d d

/-- The `TV` filter state after `__init__` (lines 176-191):
`delta`, `p = max(0.01, p)`, `weight`, optional prior `f_0`;
`isDifferentiable = True`. -/
structure TV where
  delta : ℚ
  p : ℚ
  weight : ℚ
  f_0 : Option Volume

/-- `TV.__init__`: the stored norm order is clamped to `max(0.01, p)`. -/
def TV.init (delta p weight : ℚ) (f_0 : Option Volume) : TV :=
  { delta := delta, p := max (1 / 100) p, weight := weight, f_0 := f_0 }

/-- `TV.apply` (lines 219-225), with the engine kernel
`diffuse(vol, delta, numIter, p)` as an opaque parameter.  With a prior,
the source calls `diffuse(f - self.f_0, ...)` on a freshly built temporary
and drops the returned value (`f` itself is never centered nor diffused),
then executes `f[:] += self.f_0[:]` and returns `f`; so the buffer ends as
`f + f_0`.  Without a prior the diffused volume is returned. -/
def TV.apply (diffuse : Volume → ℚ → ℕ → ℚ → Volume) (φ : TV)
    (f : Volume) : Volume :=
  match φ.f_0 with
  | some f0 =>
      let _tmp := diffuse (vsub f f0) φ.delta 1 φ.p
      vadd f f0
  | none => diffuse f φ.delta 1 φ.p

/-- Modelled from the spec: when `f_0` is set, the diffusion is applied to
the centered volume and the prior is added back afterward, i.e. the result
is `diffuse(f - f_0, delta, 1, p) + f_0`. -/
def TV.applySpec (diffuse : Volume → ℚ → ℕ → ℚ → Volume) (φ : TV)
    (f : Volume) : Volume :=
  match φ.f_0 with
  | some f0 => vadd (diffuse (vsub f f0) φ.delta 1 φ.p) f0
  | none => diffuse f φ.delta 1 φ.p

/-- The `histogramSparsity` filter state after `__init__`
(lines 306-332): `weight`, the effective target list `mus`
(`np.sort(np.unique(...))` of the input with `0.0` appended when absent),
and the derived smoothing scale `GemanParam`; `isDifferentiable = True`. -/
structure histogramSparsity where
  weight : ℚ
  mus : List ℚ
  GemanParam : ℚ

/-- The absolute gaps between consecutive entries of a list
(`|mus[l] - mus[l-1]|` for `l = 1 .. size-1`). -/
def consecGaps : List ℚ → List ℚ
  | a :: b :: rest => |b - a| :: consecGaps (b :: rest)
  | _ => []

/-- `histogramSparsity.__init__` (lines 306-332).  `0.0` is appended when
no entry equals it (`np.append`), the effective targets are
`np.sort(np.unique(mus))`, and `GemanParam = 0.25*minDist*minDist` where
`minDist` starts as `|self.mus[1] - self.mus[0]|` and is minimized over
the consecutive gaps — but only when the pre-deduplication array has
`mus.size > 1`; in that branch the source indexes `self.mus[1]`
unconditionally, which raises `IndexError` when deduplication leaves a
single target.  With `mus.size <= 1` the fallback is
`GemanParam = 1.0e-5`. -/
def histogramSparsity.init (mus0 : List ℚ) (weight : ℚ) :
    Except String histogramSparsity :=
  let mus1 := if mus0.contains 0 then mus0 else mus0 ++ [0]
  let sorted := List.insertionSort (· ≤ ·) mus1.dedup
  if 1 < mus1.length then
    match sorted with
    | m0 :: m1 :: rest =>
        let minDist := (consecGaps (m0 :: m1 :: rest)).foldl min (|m1 - m0|)
        Except.ok { weight := weight, mus := m0 :: m1 :: rest,
                    GemanParam := (1 / 4) * minDist * minDist }
    | _ =>
        Except.error "IndexError: index 1 is out of bounds for axis 0"
  else
    Except.ok { weight := weight, mus := sorted, GemanParam := 1 / 10 ^ 5 }

/-- `Geman0` (lines 334-335): `x*x/(x*x + GemanParam)`. -/
def histogramSparsity.Geman0 (φ : histogramSparsity) (x : ℚ) : ℚ :=
  x * x / (x * x + φ.GemanParam)

/-- `Geman1_over_x` (lines 340-341):
`2*GemanParam/((x*x + GemanParam)*(x*x + GemanParam))`. -/
def histogramSparsity.Geman1_over_x (φ : histogramSparsity) (x : ℚ) : ℚ :=
  2 * φ.GemanParam / ((x * x + φ.GemanParam) * (x * x + φ.GemanParam))

/-- `histogramSparsity.cost` (lines 343-348): a running voxelwise product
starting at `1.0`, multiplied by `Geman0(f - mus[l])` for every target,
then summed and scaled by `weight`. -/
def histogramSparsity.cost (φ : histogramSparsity) (f : Volume) : ℚ :=
  let curTerm :=
    φ.mus.foldl
      (fun ct mu => vmul ct (f.map (fun x => φ.Geman0 (x - mu))))
      (f.map (fun _ => (1 : ℚ)))
  φ.weight * vsum curTerm

/-- `histogramSparsity.quadForm` (lines 365-370), as written in the
source: `minDiff` starts as `abs(f - mus[0])`, and each loop iteration
executes `minDiff = minimum(minDiff, abs(minDiff - mus[l]))` — the
running minimum itself, not `f`, is shifted by the next target; the
result is `weight * innerProd(Geman1_over_x(minDiff), d, d)`. -/
def histogramSparsity.quadForm (φ : histogramSparsity) (f d : Volume) : ℚ :=
  match φ.mus with
  | [] => 0
  | mu0 :: rest =>
      let minDiff0 := (f.map (fun x => x - mu0)).map (fun x => |x|)
      let minDiff :=
        rest.foldl (fun md mu => vmin md (md.map (fun x => |x - mu|)))
          minDiff0
      φ.weight * innerProd (minDiff.map φ.Geman1_over_x) d d

/-- Modelled from the spec: `quadForm` with `minDist` the voxelwise
minimum over all targets `mu_l` of `|f - mu_l|` (the pointwise minimum
absolute distance from `f` to any target value). -/
def histogramSparsity.quadFormSpec (φ : histogramSparsity) (f d : Volume) :
    ℚ :=
  match φ.mus with
  | [] => 0
  | mu0 :: rest =>
      let minDist :=
        rest.foldl (fun md mu => vmin md (f.map (fun x => |x - mu|)))
          (f.map (fun x => |x - mu0|))
      φ.weight * innerProd (minDist.map φ.Geman1_over_x) d d

/-- The `azimuthalFilter` state after `__init__` (lines 388-402):
`FWHM`, `p`, `weight`; `isDifferentiable = True`.  The norm order is
stored exactly as passed (`self.p = p`, line 400): no clamping. -/
structure azimuthalFilter where
  FWHM : ℚ
  p : ℚ
  weight : ℚ

/-- `azimuthalFilter.__init__`: all three parameters stored unchanged. -/
def azimuthalFilter.init (FWHM p weight : ℚ) : azimuthalFilter :=
  { FWHM := FWHM, p := p, weight := weight }

/-- `azimuthalFilter.cost` (lines 404-408), with the in-place engine
kernel `AzimuthalBlur(vol, FWHM)` as an opaque parameter.  The source
builds the high-pass component `Bf = f - AzimuthalBlur(f, FWHM)` and then
evaluates `self.weight * self.leapct.sum(self.leapct.abs(Bf)**p)` — the
exponent is the bare name `p`, which is bound nowhere in the module
(`self.p` was intended), so the call raises `NameError` and returns no
value. -/
def azimuthalFilter.cost (blur : ℚ → Volume → Volume)
    (φ : azimuthalFilter) (f : Volume) : Except String ℚ :=
  let _Bf := vsub f (blur φ.FWHM f)
  Except.error "NameError: name p is not defined"

/-- Modelled from the spec: `cost` returns
`weight * sum(|H(f)|^p)` for the azimuthal high-pass component
`H(f) = f - AzimuthalBlur(f, FWHM)` and the constructed norm order. -/
def azimuthalFilter.costSpec (blur : ℚ → Volume → Volume)
    (φ : azimuthalFilter) (f : Volume) : ℚ :=
  let Bf := vsub f (blur φ.FWHM f)
  φ.weight * vsum (vpow (vabs Bf) φ.p)

/-- `azimuthalFilter.quadForm` (lines 422-435): both `f` and `d` are
high-pass filtered, then the same zero-guarded `(p-2)`-power weighting as
`LpNorm.quadForm` is applied to `Bf` and the result is
`weight * p * innerProd(W, Bd, Bd)`. -/
def azimuthalFilter.quadForm (blur : ℚ → Volume → Volume)
    (φ : azimuthalFilter) (f d : Volume) : ℚ :=
  let Bf := vsub f (blur φ.FWHM f)
  let Bd := vsub d (blur φ.FWHM d)
  φ.weight * φ.p * innerProd (Bf.map (guardPow (φ.p - 2))) Bd Bd

/-- The skip-zero weighted inner product: voxels whose base value is `0`
contribute nothing, every other voxel contributes
`|x|^(p-2) * d * d`.  Target of the zero-guard correctness statement. -/
def innerProdNZ (e : ℚ) (b d : Volume) : ℚ :=
  (List.zipWith
    (fun x di => if x = 0 then 0 else fpow |x| e * di * di) b d).sum

/-- A concrete differentiable filter (identity gradient, `Σ d²` quadratic
form), used to instantiate the generic statements at explicit inputs. -/
def sampleFilter : Filter :=
  { isDifferentiable := true, weight := 1, cost := fun _ => 0,
    gradient := fun f => f, quadForm := fun _ d => vsum (vmul d d),
    applyOp := fun f => f }

/-- The same filter with the differentiability capability turned off. -/
def sampleNonDiff : Filter := { sampleFilter with isDifferentiable := false }

/-! ## Helper lemmas -/

/-- The three-step zero guard (`substitute 1, exponentiate, restore 0`)
collapses pointwise to: `0` at a zero base, `|x| ** e` elsewhere. -/
theorem guardPow_eq (e x : ℚ) :
    guardPow e x = if x = 0 then 0 else fpow |x| e := by
  by_cases hx : x = 0 <;> simp [guardPow, hx]

/-- A weighted inner product whose weights went through the zero guard is
the skip-zero weighted inner product. -/
theorem innerProd_map_guardPow (e : ℚ) :
    ∀ (b d : Volume), innerProd (b.map (guardPow e)) d d = innerProdNZ e b d := by
  intro b
  induction b with
  | nil => intro d; rfl
  | cons x b ih =>
      intro d
      cases d with
      | nil => rfl
      | cons y d =>
          simp only [innerProd, innerProdNZ, List.map, List.zipWith,
            List.sum_cons] at ih ⊢
          rw [ih d, guardPow_eq]
          by_cases hx : x = 0 <;> simp [hx]

/-- The conditional accumulation loop of the `filterSequence` scalar
reductions, rephrased as a right fold over the list. -/
theorem foldl_costAux (g : Filter → ℚ) :
    ∀ (l : List Filter) (acc : ℚ),
      l.foldl (fun a φ => if participates φ then a + g φ else a) acc
        = acc + l.foldr (fun φ s => (if participates φ then g φ else 0) + s) 0 := by
  intro l
  induction l with
  | nil => intro acc; simp
  | cons φ l ih =>
      intro acc
      by_cases hp : participates φ <;> simp [List.foldl, List.foldr, hp, ih] <;> ring

theorem costSum_foldr (f : Volume) :
    ∀ l : List Filter,
      costSum f l
        = l.foldr (fun φ s => (if participates φ then φ.cost f else 0) + s) 0 := by
  intro l
  induction l with
  | nil => rfl
  | cons φ l ih => simp [costSum, List.foldr, ih]

theorem quadFormSum_foldr (f d : Volume) :
    ∀ l : List Filter,
      quadFormSum f d l
        = l.foldr (fun φ s => (if participates φ then φ.quadForm f d else 0) + s) 0 := by
  intro l
  induction l with
  | nil => rfl
  | cons φ l ih => simp [quadFormSum, List.foldr, ih]

theorem vadd_assoc (a : Volume) : ∀ (b c : Volume),
    vadd (vadd a b) c = vadd a (vadd b c) := by
  induction a with
  | nil => intro b c; rfl
  | cons x a ih =>
      intro b c
      cases b with
      | nil => rfl
      | cons y b =>
          cases c with
          | nil => rfl
          | cons z c =>
              show (x + y + z) :: vadd (vadd a b) c
                = (x + (y + z)) :: vadd a (vadd b c)
              rw [add_assoc, ih]

theorem vadd_zeroLike (D : Volume) : ∀ (f : Volume),
    D.length ≤ f.length → vadd D (zeroLike f) = D := by
  induction D with
  | nil => intro f h; rfl
  | cons x D ih =>
      intro f h
      cases f with
      | nil => simp at h
      | cons y f =>
          show (x + 0) :: vadd D (zeroLike f) = x :: D
          rw [add_zero, ih f (by simpa using h)]

theorem zeroLike_vadd (S : Volume) : ∀ (f : Volume),
    S.length ≤ f.length → vadd (zeroLike f) S = S := by
  induction S with
  | nil => intro f h; cases f <;> rfl
  | cons s S ih =>
      intro f h
      cases f with
      | nil => simp at h
      | cons y f =>
          show (0 + s) :: vadd (zeroLike f) S = s :: S
          rw [zero_add, ih f (by simpa using h)]

theorem gradSum_length_le (f : Volume) : ∀ (l : List Filter),
    (gradSum f l).length ≤ f.length := by
  intro l
  induction l with
  | nil => simp [gradSum, zeroLike]
  | cons φ l ih =>
      by_cases hp : participates φ
      · simp only [gradSum, hp, if_true, vadd, List.length_zipWith]
        exact le_trans (min_le_right _ _) ih
      · simpa [gradSum, hp] using ih

/-- The conditional in-place accumulation of gradients, rephrased as the
accumulator plus the sum over the participating subset. -/
theorem foldl_gradAux (f : Volume) : ∀ (l : List Filter) (D : Volume),
    D.length ≤ f.length →
      l.foldl (fun D φ => if participates φ then vadd D (φ.gradient f) else D) D
        = vadd D (gradSum f l) := by
  intro l
  induction l with
  | nil =>
      intro D h
      simp [List.foldl, gradSum, vadd_zeroLike D f h]
  | cons φ l ih =>
      intro D h
      by_cases hp : participates φ
      · have hlen : (vadd D (φ.gradient f)).length ≤ f.length := by
          simp only [vadd, List.length_zipWith]
          exact le_trans (min_le_left _ _) h
        simp only [List.foldl, hp, if_true]
        rw [ih (vadd D (φ.gradient f)) hlen, vadd_assoc]
        simp [gradSum, hp]
      · simp only [List.foldl, hp, if_false]
        rw [ih D h]
        simp [gradSum, hp]

/-! ## Claim theorems -/

/-- Claim C1: for every differentiable filter with no overridden `apply`
and every volume `f`, the generic `apply` computes `g = gradient(f)` and
`denom = quadForm(f, g)`; if `denom <= 1e-16` it returns `f` unchanged (a
no-op, not an error), and otherwise it returns
`f - (sum(g^2)/denom) * g`, one exact-step gradient-descent iteration.
For every non-differentiable filter with no overridden `apply`, the call
returns a null result (`none`). -/
theorem denoisingFilter_apply_generic (φ : Filter) (f : Volume) :
    (φ.isDifferentiable = true →
      φ.quadForm f (φ.gradient f) ≤ 1 / 10 ^ 16 →
        denoisingFilter.apply φ f = some f)
  ∧ (φ.isDifferentiable = true →
      1 / 10 ^ 16 < φ.quadForm f (φ.gradient f) →
        denoisingFilter.apply φ f
          = some (vsub f
              (smul (vsum (vpow (φ.gradient f) 2) / φ.quadForm f (φ.gradient f))
                (φ.gradient f))))
  ∧ (φ.isDifferentiable = false → denoisingFilter.apply φ f = none) := by
  refine ⟨?_, ?_, ?_⟩
  · intro h1 h2
    simp only [denoisingFilter.apply, h1, if_true]
    rw [if_pos h2]
  · intro h1 h2
    simp only [denoisingFilter.apply, h1, if_true]
    rw [if_neg (not_le.mpr h2)]
  · intro h3
    simp [denoisingFilter.apply, h3]

/-- Witness for C1: the generic step at `sampleFilter` on `[1]`
(non-degenerate branch), and the null result of the non-differentiable
variant. -/
theorem denoisingFilter_apply_generic_witness :
    sampleFilter.isDifferentiable = true
  ∧ 1 / 10 ^ 16 < sampleFilter.quadForm [1] (sampleFilter.gradient [1])
  ∧ denoisingFilter.apply sampleFilter [1]
      = some (vsub [1]
          (smul (vsum (vpow (sampleFilter.gradient [1]) 2) /
              sampleFilter.quadForm [1] (sampleFilter.gradient [1]))
            (sampleFilter.gradient [1])))
  ∧ sampleNonDiff.isDifferentiable = false
  ∧ denoisingFilter.apply sampleNonDiff [1] = none :=
  ⟨rfl,
   by norm_num [sampleFilter, vsum, vmul],
   (denoisingFilter_apply_generic sampleFilter [1]).2.1 rfl
     (by norm_num [sampleFilter, vsum, vmul]),
   rfl,
   (denoisingFilter_apply_generic sampleNonDiff [1]).2.2 rfl⟩

/-- Claim C2: for every nonempty filter list, volume `f` and direction
`d`: `cost` is `beta` times the sum of the participating filters' costs
when `beta > 0` and exactly `0` otherwise; `gradient` is `beta` times the
corresponding sum of gradients when `beta > 0` and a zero volume of `f`'s
shape otherwise; `quadForm` is `beta` times the corresponding sum of
quadratic forms when `beta > 0` and exactly `0` otherwise; and a
non-differentiable filter never contributes to any of the three. -/
theorem filterSequence_eval (filters : List Filter) (β : ℚ) (f d : Volume)
    (hne : filters ≠ []) :
    filterSequence.cost ⟨filters, β⟩ f
      = (if 0 < β then β * costSum f filters else 0)
  ∧ filterSequence.gradient ⟨filters, β⟩ f
      = (if 0 < β then smul β (gradSum f filters) else zeroLike f)
  ∧ filterSequence.quadForm ⟨filters, β⟩ f d
      = (if 0 < β then β * quadFormSum f d filters else 0)
  ∧ (∀ ψ : Filter, ψ.isDifferentiable = false →
      filterSequence.cost ⟨ψ :: filters, β⟩ f = filterSequence.cost ⟨filters, β⟩ f
      ∧ filterSequence.gradient ⟨ψ :: filters, β⟩ f
          = filterSequence.gradient ⟨filters, β⟩ f
      ∧ filterSequence.quadForm ⟨ψ :: filters, β⟩ f d
          = filterSequence.quadForm ⟨filters, β⟩ f d) := by
  have hnp : ∀ ψ : Filter, ψ.isDifferentiable = false → ¬ participates ψ := by
    intro ψ hψ hc
    rw [participates] at hc
    rw [hψ] at hc
    exact Bool.false_ne_true hc.1
  have hcost : ∀ l : List Filter,
      filterSequence.cost ⟨l, β⟩ f = (if 0 < β then β * costSum f l else 0) := by
    intro l
    by_cases hβ : 0 < β <;>
      simp only [filterSequence.cost, hβ, if_true, if_false]
    rw [foldl_costAux (fun φ => φ.cost f) l 0, ← costSum_foldr f l, zero_add]
  have hgrad : ∀ l : List Filter,
      filterSequence.gradient ⟨l, β⟩ f
        = (if 0 < β then smul β (gradSum f l) else zeroLike f) := by
    intro l
    by_cases hβ : 0 < β <;>
      simp only [filterSequence.gradient, hβ, if_true, if_false]
    rw [foldl_gradAux f l (zeroLike f) (by simp [zeroLike]),
        zeroLike_vadd _ f (gradSum_length_le f l)]
  have hquad : ∀ l : List Filter,
      filterSequence.quadForm ⟨l, β⟩ f d
        = (if 0 < β then β * quadFormSum f d l else 0) := by
    intro l
    by_cases hβ : 0 < β <;>
      simp only [filterSequence.quadForm, hβ, if_true, if_false]
    rw [foldl_costAux (fun φ => φ.quadForm f d) l 0, ← quadFormSum_foldr f d l,
        zero_add]
  refine ⟨hcost filters, hgrad filters, hquad filters, ?_⟩
  intro ψ hψ
  refine ⟨?_, ?_, ?_⟩
  · rw [hcost (ψ :: filters), hcost filters]
    simp [costSum, hnp ψ hψ]
  · rw [hgrad (ψ :: filters), hgrad filters]
    simp [gradSum, hnp ψ hψ]
  · rw [hquad (ψ :: filters), hquad filters]
    simp [quadFormSum, hnp ψ hψ]

/-- Witness for C2: the cost aggregation at a concrete one-filter
sequence with `beta = 1`. -/
theorem filterSequence_eval_witness :
    ([sampleFilter] ≠ ([] : List Filter))
  ∧ filterSequence.cost ⟨[sampleFilter], 1⟩ [1]
      = (if (0:ℚ) < 1 then 1 * costSum [1] [sampleFilter] else 0) :=
  ⟨List.cons_ne_nil _ _,
   (filterSequence_eval [sampleFilter] 1 [1] [1] (List.cons_ne_nil _ _)).1⟩

/-- Claim C3 (code bug): `histogramSparsity.quadForm` is specified to use
`minDist`, the voxelwise minimum over all targets of `|f - mu_l|`, inside
`weight * innerProd(G1(minDist)/minDist, d, d)`; the source instead
shifts the running minimum by the next target
(`minimum(minDiff, abs(minDiff - mus[l]))`).  For the filter built from
`mus = [1.0, 2.0]` (targets `[0, 1, 2]`, `GemanParam = 1/4`), at
`f = [2]`, `d = [1]` the code yields `8/25` while the specified formula
yields `8`. -/
theorem histogramSparsity_quadForm_bug :
    histogramSparsity.init [1, 2] 1
      = Except.ok { weight := 1, mus := [0, 1, 2], GemanParam := 1/4 }
  ∧ histogramSparsity.quadForm ⟨1, [0, 1, 2], 1/4⟩ [2] [1] = 8/25
  ∧ histogramSparsity.quadFormSpec ⟨1, [0, 1, 2], 1/4⟩ [2] [1] = 8
  ∧ (8/25 : ℚ) ≠ 8 := by
  refine ⟨?_, ?_, ?_, by norm_num⟩
  · norm_num [histogramSparsity.init, List.dedup, List.insertionSort,
      List.orderedInsert, consecGaps]
  · norm_num [histogramSparsity.quadForm, histogramSparsity.Geman1_over_x,
      innerProd, vmin]
  · norm_num [histogramSparsity.quadFormSpec, histogramSparsity.Geman1_over_x,
      innerProd, vmin]

/-- Claim C4 (code bug): with a prior `f_0`, `TV.apply` is specified to
return `diffuse(f - f_0, delta, 1, p) + f_0`; the source drops the value
returned by `diffuse` (which ran on a fresh temporary) and returns
`f + f_0` instead.  With the identity taken for `diffuse`, `f = [1]` and
`f_0 = [1]`: the specified result is `[1]`, the code produces `[2]`. -/
theorem TV_apply_prior_bug :
    TV.apply (fun v _ _ _ => v) (TV.init 0 (6/5) 1 (some [1])) [1] = [2]
  ∧ TV.applySpec (fun v _ _ _ => v) (TV.init 0 (6/5) 1 (some [1])) [1] = [1]
  ∧ ([2] : Volume) ≠ [1] := by
  refine ⟨?_, ?_, by norm_num⟩
  · norm_num [TV.apply, TV.init, vadd, vsub]
  · norm_num [TV.applySpec, TV.init, vadd, vsub]

/-- Claim C5 (code bug): `azimuthalFilter.cost` is specified to return
`weight * sum(|H(f)|^p)`; the source exponentiates by the unbound module
name `p` instead of `self.p`, so every call raises `NameError` instead of
returning a value.  At a concrete filter and volume the code errors where
the specified formula evaluates to `0`. -/
theorem azimuthalFilter_cost_NameError :
    azimuthalFilter.cost (fun _ v => v) (azimuthalFilter.init 1 2 1) [1, 2]
      = Except.error "NameError: name p is not defined"
  ∧ azimuthalFilter.costSpec (fun _ v => v) (azimuthalFilter.init 1 2 1) [1, 2]
      = 0 := by
  refine ⟨rfl, ?_⟩
  norm_num [azimuthalFilter.costSpec, azimuthalFilter.init, vsub, vsum, vpow,
    vabs, fpow]

/-- Claim C6: the LpNorm reference case — for the filter with `p = 2`,
`weight = 0.5`, no prior, and `f = [1, -1, 2]`: `cost = 3.0`,
`gradient = [1, -1, 2]`, `quadForm(f, [1,1,1]) = 3.0`, and the generic
step size `sum(gradient^2)/quadForm(f, gradient) = 1.0`. -/
theorem LpNorm_reference_case :
    LpNorm.cost (LpNorm.init 2 (1/2) none) [1, -1, 2] = 3
  ∧ LpNorm.gradient (LpNorm.init 2 (1/2) none) [1, -1, 2] = [1, -1, 2]
  ∧ LpNorm.quadForm (LpNorm.init 2 (1/2) none) [1, -1, 2] [1, 1, 1] = 3
  ∧ vsum (vpow (LpNorm.gradient (LpNorm.init 2 (1/2) none) [1, -1, 2]) 2) /
      LpNorm.quadForm (LpNorm.init 2 (1/2) none) [1, -1, 2]
        (LpNorm.gradient (LpNorm.init 2 (1/2) none) [1, -1, 2]) = 1 := by
  refine ⟨?_, ?_, ?_, ?_⟩
  · norm_num [LpNorm.cost, LpNorm.init, centerVol, vsum, vpow, vabs, fpow]
  · norm_num [LpNorm.gradient, LpNorm.init, centerVol, smul, vmul, vsign, vpow,
      vabs, fpow]
  · norm_num [LpNorm.quadForm, LpNorm.init, centerVol, innerProd, guardPow, fpow]
  · norm_num [LpNorm.gradient, LpNorm.quadForm, LpNorm.init, centerVol, smul,
      vmul, vsign, vpow, vabs, fpow, vsum, innerProd, guardPow]

/-- Claim C7: in `LpNorm.quadForm` and `azimuthalFilter.quadForm` the
`(p-2)`-power weighting is zero-guarded: wherever the base (`f - f_0`,
`f`, or the high-pass component) is exactly `0`, the value `1` is
substituted before exponentiation and the position is forced back to `0`
afterward, so the quadratic form equals the skip-zero weighted inner
product: zero-base positions contribute exactly `0`, and (in this exact
arithmetic model) the result is always a finite rational. -/
theorem zero_guarded_quadForm (p w FWHM : ℚ) (f_0 : Option Volume)
    (blur : ℚ → Volume → Volume) (f d : Volume) :
    LpNorm.quadForm ⟨p, w, f_0⟩ f d
      = w * p * innerProdNZ (p - 2) (centerVol f f_0) d
  ∧ azimuthalFilter.quadForm blur ⟨FWHM, p, w⟩ f d
      = w * p * innerProdNZ (p - 2) (vsub f (blur FWHM f))
          (vsub d (blur FWHM d)) := by
  constructor
  · rw [LpNorm.quadForm]
    rw [innerProd_map_guardPow]
  · rw [azimuthalFilter.quadForm]
    rw [innerProd_map_guardPow]

/-- Claim C8: `filterSequence.apply` runs every filter's `apply` on the
buffer in list order — the head filter first, each later stage seeing the
previous stage's result — regardless of `beta` and regardless of each
filter's `isDifferentiable` flag and `weight`. -/
theorem filterSequence_apply_all (filters : List Filter) (β β2 : ℚ)
    (φ : Filter) (b : Bool) (w : ℚ) (f : Volume) :
    filterSequence.apply ⟨filters, β⟩ f = filterSequence.apply ⟨filters, β2⟩ f
  ∧ filterSequence.apply ⟨φ :: filters, β⟩ f
      = filterSequence.apply ⟨filters, β⟩ (φ.applyOp f)
  ∧ filterSequence.apply
      ⟨{ φ with isDifferentiable := b, weight := w } :: filters, β⟩ f
      = filterSequence.apply ⟨φ :: filters, β⟩ f
  ∧ filterSequence.apply ⟨([] : List Filter), β⟩ f = f :=
  ⟨rfl, rfl, rfl, rfl⟩

/-- Claim C9 (code bug): the constructor dedupes, sorts and auto-inserts
`0.0` (`mus = [1.0, 2.0]` yields targets `[0, 1, 2]` with
`GemanParam = 0.25 * 1^2`), uses the `1e-5` fallback for a single-entry
input, and the cost at a volume equal to any target is strictly below the
cost at a midpoint between adjacent targets — but the claimed fallback
"whenever only one target value exists" fails: the guard tests the size
of the pre-deduplication array, so the input `[0.0, 0.0]` (one effective
target) makes the source index `self.mus[1]` and raise `IndexError`. -/
theorem histogramSparsity_init_bug :
    histogramSparsity.init [0, 0] 1
      = Except.error "IndexError: index 1 is out of bounds for axis 0"
  ∧ histogramSparsity.init [1, 2] 1
      = Except.ok { weight := 1, mus := [0, 1, 2], GemanParam := 1/4 }
  ∧ histogramSparsity.init [0] 1
      = Except.ok { weight := 1, mus := [0], GemanParam := 1 / 10 ^ 5 }
  ∧ histogramSparsity.cost ⟨1, [0, 1, 2], 1/4⟩ [0] = 0
  ∧ histogramSparsity.cost ⟨1, [0, 1, 2], 1/4⟩ [1] = 0
  ∧ histogramSparsity.cost ⟨1, [0, 1, 2], 1/4⟩ [2] = 0
  ∧ histogramSparsity.cost ⟨1, [0, 1, 2], 1/4⟩ [1/2] = 9/40
  ∧ histogramSparsity.cost ⟨1, [0, 1, 2], 1/4⟩ [3/2] = 9/40
  ∧ (0 : ℚ) < 9/40 := by
  refine ⟨?_, ?_, ?_, ?_, ?_, ?_, ?_, ?_, by norm_num⟩
  · norm_num [histogramSparsity.init, List.dedup, List.insertionSort,
      List.orderedInsert]
  · norm_num [histogramSparsity.init, List.dedup, List.insertionSort,
      List.orderedInsert, consecGaps]
  · norm_num [histogramSparsity.init, List.dedup, List.insertionSort,
      List.orderedInsert]
  all_goals norm_num [histogramSparsity.cost, histogramSparsity.Geman0, vsum, vmul]

/-- Counterexample to claim C10 as stated: `azimuthalFilter` constructed
with `p = -1` stores `-1`, which is not in the claimed domain `p >= 0`. -/
theorem azimuthalFilter_p_not_clamped :
    (azimuthalFilter.init 1 (-1) 1).p = -1
  ∧ ¬ (0 ≤ (azimuthalFilter.init 1 (-1) 1).p) :=
  ⟨rfl, by norm_num [azimuthalFilter.init]⟩

/-- Claim C10 as amended: after construction `LpNorm` stores
`p = max(0, p)` (hence `p >= 0`) and `TV` stores `p = max(0.01, p)`
(hence `p >= 0.01`) — out-of-domain arguments clamped, not rejected —
while `azimuthalFilter` stores its `p` argument unchanged, with no
clamping. -/
theorem norm_order_clamping (p w δ F : ℚ) (f_0 : Option Volume) :
    ((LpNorm.init p w f_0).p = max 0 p ∧ 0 ≤ (LpNorm.init p w f_0).p)
  ∧ ((TV.init δ p w f_0).p = max (1/100) p ∧ 1/100 ≤ (TV.init δ p w f_0).p)
  ∧ (azimuthalFilter.init F p w).p = p :=
  ⟨⟨rfl, le_max_left 0 p⟩, ⟨rfl, le_max_left (1/100) p⟩, rfl⟩

end LEAP
